import Mathlib

/-!
Verification development for `src/BettyAudioApp.hpp` of MEMLNaut-MLDrummer.

The numeric type of the C++ source is `float`; we embed values as exact
rationals `ℚ` (and reals `ℝ` where the transcendental `tanhf` appears), the
usual idealisation of the arithmetic.  Machine `size_t` counters are embedded
as `Nat`.  The `OnePoleSmoother` class lives in the external `memllib` library
(only included by this repository, not part of `src/`); the hysteresis gate is
therefore modelled as a function of its already-smoothed input, which is how
both the code (lines 53-59) and the spec phrase its behaviour: the gate
thresholds the smoothed value at 0.5 and debounces the resulting boolean.
Likewise the DSP primitives consumed by `ProcessInline` (delay line, auto-wah,
pitch shifters, DC blocker) are external components; the orchestration code of
`ProcessInline` is modelled with their per-sample outputs abstracted as inputs.
-/

namespace MLDrummer

/-- Clamping to [0,1]: `fmaxf(0.0f, fminf(1.0f, x))` as it appears at
lines 26 and 98-99 of the source. -/
def clamp01 (x : ℚ) : ℚ := max 0 (min 1 x)

/-- `MapToSeries` (source lines 21-38).  Empty series returns 0; a
one-entry series returns that entry before any clamping happens; otherwise
the value is clamped to [0,1], divided by `segment_size = 1/size` (in exact
arithmetic `value / (1/size) = value * size`), truncated to an index
(`static_cast<size_t>` of a non-negative value is the floor), the index is
pulled back to `size - 1` when it overflows, and the series is indexed. -/
def MapToSeries (value : ℚ) (series : List ℚ) : ℚ :=
  if series.isEmpty then 0
  else if series.length = 1 then series.headD 0
  else
    let v := clamp01 value
    let rawIndex : Nat := (Int.floor (v * (series.length : ℚ))).toNat
    let index : Nat := if series.length ≤ rawIndex then series.length - 1 else rawIndex
    series.getD index 0

/-- `BiasedScale` (source lines 96-116): clamp both inputs to [0,1], pick the
output range from the bias (`[0, bias+0.5]` when `bias <= 0.5`, else
`[bias-0.5, 1]`), and remap `value` affinely onto it. -/
def BiasedScale (value bias : ℚ) : ℚ :=
  let v := clamp01 value
  let b := clamp01 bias
  let range_min : ℚ := if b ≤ 1/2 then 0 else b - 1/2
  let range_max : ℚ := if b ≤ 1/2 then b + 1/2 else 1
  range_min + v * (range_max - range_min)

/-- The spec's description of the bias-dependent lower range bound:
"range [0, bias + 0.5] for bias <= 0.5, range [bias - 0.5, 1] for bias > 0.5". -/
def rangeMinSpec (b : ℚ) : ℚ := if b ≤ 1/2 then 0 else b - 1/2

/-- The spec's description of the bias-dependent upper range bound. -/
def rangeMaxSpec (b : ℚ) : ℚ := if b ≤ 1/2 then b + 1/2 else 1

/-- Mutable state of the `HysteresisSmoother` class (source lines 41-93),
minus the external one-pole smoother.  `hysteresis_samples_` is a
construction-time constant and is passed as a parameter to the step
functions instead of being stored. -/
structure HysteresisSmoother where
  current_flag_ : Bool
  pending_flag_ : Bool
  counter_ : Nat
deriving DecidableEq

/-- Constructor state (source lines 47-49): `current_flag_(false),
pending_flag_(false), counter_(0)`. -/
def hysteresisInit : HysteresisSmoother := ⟨false, false, 0⟩

/-- The hysteresis update of `Process` (source lines 62-80), transcribed with
the source's own branch structure: outer test `target_flag != current_flag_`,
inner test `target_flag == pending_flag_`, commit when the incremented counter
satisfies `counter_ >= hysteresis_samples_`. -/
def hysteresisStep (hsamples : Nat) (s : HysteresisSmoother) (target_flag : Bool) :
    HysteresisSmoother :=
  if target_flag ≠ s.current_flag_ then
    if target_flag = s.pending_flag_ then
      if hsamples ≤ s.counter_ + 1 then
        ⟨target_flag, s.pending_flag_, 0⟩
      else
        ⟨s.current_flag_, s.pending_flag_, s.counter_ + 1⟩
    else
      ⟨s.current_flag_, target_flag, 1⟩
  else
    ⟨s.current_flag_, s.current_flag_, 0⟩

/-- Discretisation of the smoothed input (source line 59):
`bool target_flag = smoothed >= 0.5f`. -/
def thresholdFlag (smoothed : ℚ) : Bool := decide ((1/2 : ℚ) ≤ smoothed)

/-- `HysteresisSmoother::Process` as a function of the already-smoothed input:
threshold at 0.5, run the hysteresis update, return the (possibly updated)
current flag together with the new state. -/
def HysteresisSmoother.Process (hsamples : Nat) (s : HysteresisSmoother) (smoothed : ℚ) :
    Bool × HysteresisSmoother :=
  let s2 := hysteresisStep hsamples s (thresholdFlag smoothed)
  (s2.current_flag_, s2)

/-- The gate's transition rule as §4.3 of the spec words it, case by case in
the spec's order: (1) `target == current` resets `pending = current`,
`counter = 0`; (2) `target == pending` increments the counter and commits
once it reaches the hysteresis duration; (3) otherwise the dwell count
restarts with `pending = target`, `counter = 1`. -/
def hysteresisStepSpec (hsamples : Nat) (s : HysteresisSmoother) (target : Bool) :
    HysteresisSmoother :=
  if target = s.current_flag_ then
    ⟨s.current_flag_, s.current_flag_, 0⟩
  else if target = s.pending_flag_ then
    if hsamples ≤ s.counter_ + 1 then
      ⟨target, s.pending_flag_, 0⟩
    else
      ⟨s.current_flag_, s.pending_flag_, s.counter_ + 1⟩
  else
    ⟨s.current_flag_, target, 1⟩

/-- Folding `Process` over a stream of smoothed input values. -/
def hysteresisRun (hsamples : Nat) (s : HysteresisSmoother) (xs : List ℚ) :
    HysteresisSmoother :=
  xs.foldl (fun st x => (HysteresisSmoother.Process hsamples st x).2) s

/-- Gate state after the first `n` calls of a stream, starting at the
constructor state. -/
def stateAfter (hsamples : Nat) (xs : List ℚ) (n : Nat) : HysteresisSmoother :=
  hysteresisRun hsamples hysteresisInit (xs.take n)

/-- Externally observed flag after the first `n` calls. -/
def currentAfter (hsamples : Nat) (xs : List ℚ) (n : Nat) : Bool :=
  (stateAfter hsamples xs n).current_flag_

/-- The observed flag changes at call `i` (1-based). -/
def ChangeAt (hsamples : Nat) (xs : List ℚ) (i : Nat) : Prop :=
  1 ≤ i ∧ i ≤ xs.length ∧ currentAfter hsamples xs i ≠ currentAfter hsamples xs (i - 1)

/-- The `ParamDef` layout of `BettyAudioApp` (source lines 122-130): seven
consecutive `float` fields, read through a union as an array of
`kN_Params` floats. -/
structure ParamDef where
  which_shift : ℚ
  shift : ℚ
  shift2 : ℚ
  dlyfeedback : ℚ
  wahlevel : ℚ
  wahdrywet : ℚ
  wahwah : ℚ

/-- `kN_Params = sizeof(ParamDef) / sizeof(float)` (source line 131):
`ParamDef` has exactly seven `float` members. -/
def kN_Params : Nat := 7

/-- The fixed musical-interval series of the single-shifter mode
(source line 165): `{2.f, 5., 7.f, 10.f, 12.f}`. -/
def pitchSeries : List ℚ := [2, 5, 7, 10, 12]

/-- Per-sample pitch-shift control values chosen by the mode branch:
transposition of the first shifter, transposition written to the second
shifter (`none` when the branch leaves it untouched), and the two mix
weights. -/
structure ModeControl where
  transposition1 : ℚ
  transposition2 : Option ℚ
  mix_pitch1 : ℚ
  mix_pitch2 : ℚ
deriving DecidableEq

/-- The mode branch of `ProcessInline` (source lines 163-176): on `true` the
first shifter is set from the quantized series and mixes are 1/0; on `false`
`third_down = (shift > 0.5) ? -9 : -8`, `fifth_down = (shift2 > 0.5) ? -7 : -7`
and mixes are 0.5/0.5. -/
def modeBranch (smoothed_switch : Bool) (shift shift2 : ℚ) : ModeControl :=
  if smoothed_switch then
    ⟨MapToSeries shift pitchSeries, none, 1, 0⟩
  else
    ⟨if 1/2 < shift then -9 else -8, some (if 1/2 < shift2 then -7 else -7), 1/2, 1/2⟩

/-- One stereo sample (`stereosample_t` of the audio driver interface). -/
structure stereosample_t where
  L : ℝ
  R : ℝ

/-- The signal-output stage of `ProcessInline` (source lines 184-196) with the
external DSP chain abstracted: `y = x.L + x.R`, `tail` stands for the
processed delayed signal `dcb.play(...)` produced by the external delay /
wah / pitch-shift / DC-block primitives from the app's internal state,
`y += tail * 0.5f`, `y = tanhf(y)`, return `{y, y}`.  Noncomputable only
because `tanhf` is transcendental. -/
noncomputable def ProcessInlineOut (x : stereosample_t) (tail : ℝ) : stereosample_t :=
  let y := x.L + x.R
  let y2 := y + tail * (1/2)
  ⟨Real.tanh y2, Real.tanh y2⟩

/-- Stored state of `BettyAudioApp` relevant to parameter intake
(source line 215): the latest raw parameter vector. -/
structure BettyAudioApp where
  neuralNetOutputs : List ℚ

/-- `BettyAudioApp::ProcessParams` (source lines 208-211): the supplied
vector is assigned to `neuralNetOutputs` verbatim, with no length check. -/
def ProcessParams (app : BettyAudioApp) (params : List ℚ) : BettyAudioApp :=
  ⟨params⟩

/-- The per-sample read `smoother.Process(neuralNetOutputs.data(), param_u.v)`
(source line 157) consumes `kN_Params` floats from the stored buffer; the
read is in bounds exactly when the stored vector holds at least `kN_Params`
entries, and is modelled as fallible otherwise. -/
def readParamBlock (buf : List ℚ) : Option (List ℚ) :=
  if kN_Params ≤ buf.length then some (buf.take kN_Params) else none

/-! ### Helper lemmas -/

lemma clamp01_nonneg (x : ℚ) : 0 ≤ clamp01 x := le_max_left 0 _

lemma clamp01_le_one (x : ℚ) : clamp01 x ≤ 1 := max_le (by norm_num) (min_le_left 1 x)

lemma clamp01_eq_self {x : ℚ} (h0 : 0 ≤ x) (h1 : x ≤ 1) : clamp01 x = x := by
  unfold clamp01; rw [min_eq_right h1, max_eq_right h0]

lemma clamp01_one : clamp01 1 = 1 := by norm_num [clamp01]

lemma clamp01_zero : clamp01 0 = 0 := by norm_num [clamp01]

lemma mapToSeries_eval (v : ℚ) (series : List ℚ) (hlen : 2 ≤ series.length) :
    MapToSeries v series =
      series.getD
        (if series.length ≤ (Int.floor (clamp01 v * (series.length : ℚ))).toNat
         then series.length - 1
         else (Int.floor (clamp01 v * (series.length : ℚ))).toNat) 0 := by
  have hne : series.isEmpty = false := by
    cases series with
    | nil => simp at hlen
    | cons a t => simp
  have h1 : ¬ series.length = 1 := by omega
  simp only [MapToSeries, hne, Bool.false_eq_true, if_false, h1]

lemma mapToSeries_bucket (v : ℚ) (series : List ℚ) (hlen : 2 ≤ series.length) :
    ∃ i : Nat, i < series.length ∧ MapToSeries v series = series.getD i 0 ∧
      (i : ℚ) ≤ clamp01 v * series.length ∧
      (clamp01 v * series.length < i + 1 ∨ i + 1 = series.length) := by
  have hc0 : 0 ≤ clamp01 v := clamp01_nonneg v
  have hc1 : clamp01 v ≤ 1 := clamp01_le_one v
  have hM0 : (0:ℚ) ≤ (series.length : ℚ) := by positivity
  have hcM0 : 0 ≤ clamp01 v * (series.length : ℚ) := mul_nonneg hc0 hM0
  have hcMM : clamp01 v * (series.length : ℚ) ≤ (series.length : ℚ) :=
    mul_le_of_le_one_left hM0 hc1
  have hraw0 : 0 ≤ Int.floor (clamp01 v * (series.length : ℚ)) :=
    Int.floor_nonneg.mpr hcM0
  have hrawM : Int.floor (clamp01 v * (series.length : ℚ)) ≤ (series.length : ℤ) := by
    have := Int.floor_le_floor hcMM
    rwa [Int.floor_natCast] at this
  rw [mapToSeries_eval v series hlen]
  by_cases hidx : series.length ≤ (Int.floor (clamp01 v * (series.length : ℚ))).toNat
  · refine ⟨series.length - 1, by omega, by rw [if_pos hidx], ?_, Or.inr (by omega)⟩
    have hraweq : Int.floor (clamp01 v * (series.length : ℚ)) = (series.length : ℤ) := by
      omega
    have hge : (series.length : ℚ) ≤ clamp01 v * (series.length : ℚ) := by
      have := Int.le_floor.mp (le_of_eq hraweq.symm)
      simpa using this
    have hlast : ((series.length - 1 : Nat) : ℚ) ≤ (series.length : ℚ) - 1 := by
      push_cast [Nat.cast_sub (by omega : 1 ≤ series.length)]
      ring_nf
      exact le_refl _
    calc ((series.length - 1 : Nat) : ℚ) ≤ (series.length : ℚ) - 1 := hlast
      _ ≤ clamp01 v * (series.length : ℚ) - 1 := by linarith
      _ ≤ clamp01 v * (series.length : ℚ) := by linarith
  · refine ⟨(Int.floor (clamp01 v * (series.length : ℚ))).toNat, by omega,
      by rw [if_neg hidx], ?_, Or.inl ?_⟩
    · have hfl : (Int.floor (clamp01 v * (series.length : ℚ)) : ℚ) ≤
          clamp01 v * (series.length : ℚ) := Int.floor_le _
      have hcast : ((Int.floor (clamp01 v * (series.length : ℚ))).toNat : ℤ) =
          Int.floor (clamp01 v * (series.length : ℚ)) := Int.toNat_of_nonneg hraw0
      calc ((Int.floor (clamp01 v * (series.length : ℚ))).toNat : ℚ)
          = ((Int.floor (clamp01 v * (series.length : ℚ)) : ℤ) : ℚ) := by
            exact_mod_cast congrArg (fun z : ℤ => (z : ℚ)) hcast
        _ ≤ clamp01 v * (series.length : ℚ) := hfl
    · have hlt : clamp01 v * (series.length : ℚ) <
          Int.floor (clamp01 v * (series.length : ℚ)) + 1 := Int.lt_floor_add_one _
      have hcast : ((Int.floor (clamp01 v * (series.length : ℚ))).toNat : ℤ) =
          Int.floor (clamp01 v * (series.length : ℚ)) := Int.toNat_of_nonneg hraw0
      calc clamp01 v * (series.length : ℚ)
          < Int.floor (clamp01 v * (series.length : ℚ)) + 1 := hlt
        _ = ((Int.floor (clamp01 v * (series.length : ℚ))).toNat : ℚ) + 1 := by
            exact_mod_cast congrArg (fun z : ℤ => ((z : ℚ) + 1)) hcast.symm

lemma mapToSeries_nil (v : ℚ) : MapToSeries v [] = 0 := by simp [MapToSeries]

lemma mapToSeries_single (v x : ℚ) : MapToSeries v [x] = x := by simp [MapToSeries]

lemma mapToSeries_one_getLast (series : List ℚ) (h : series ≠ []) :
    MapToSeries 1 series = series.getLast h := by
  rcases Nat.lt_or_ge series.length 2 with hl | hl
  · have h1 : series.length = 1 := by
      have := List.length_pos.mpr h; omega
    obtain ⟨a, rfl⟩ := List.length_eq_one.mp h1
    simp [MapToSeries, List.getLast]
  · have heval := mapToSeries_eval 1 series hl
    rw [clamp01_one, one_mul, Int.floor_natCast] at heval
    have hb : series.length - 1 < series.length := by omega
    rw [heval, if_pos (by simp), List.getLast_eq_getElem,
      List.getD_eq_getElem series 0 (by simpa using hb)]

lemma mapToSeries_mem (v : ℚ) (series : List ℚ) (h : series ≠ []) :
    MapToSeries v series ∈ series := by
  rcases Nat.lt_or_ge series.length 2 with hl | hl
  · have h1 : series.length = 1 := by
      have := List.length_pos.mpr h; omega
    obtain ⟨a, rfl⟩ := List.length_eq_one.mp h1
    simp [MapToSeries]
  · obtain ⟨i, hi, heq, _, _⟩ := mapToSeries_bucket v series hl
    rw [heq, List.getD_eq_getElem series 0 hi]
    exact List.getElem_mem hi

lemma biasedScale_eval {v b : ℚ} (hv0 : 0 ≤ v) (hv1 : v ≤ 1) (hb0 : 0 ≤ b) (hb1 : b ≤ 1) :
    BiasedScale v b = rangeMinSpec b + v * (rangeMaxSpec b - rangeMinSpec b) := by
  simp only [BiasedScale, rangeMinSpec, rangeMaxSpec,
    clamp01_eq_self hv0 hv1, clamp01_eq_self hb0 hb1]

lemma hysteresisStep_eq_spec (h : Nat) (s : HysteresisSmoother) (t : Bool) :
    hysteresisStep h s t = hysteresisStepSpec h s t := by
  unfold hysteresisStep hysteresisStepSpec
  by_cases h1 : t = s.current_flag_ <;> by_cases h2 : t = s.pending_flag_ <;>
    simp [h1, h2]

lemma hysteresisRun_cons (h : Nat) (s : HysteresisSmoother) (x : ℚ) (xs : List ℚ) :
    hysteresisRun h s (x :: xs) = hysteresisRun h (hysteresisStep h s (thresholdFlag x)) xs :=
  rfl

lemma foldl_preserve {P : HysteresisSmoother → Prop} (h : Nat)
    (hstep : ∀ s t, P s → P (hysteresisStep h s t)) :
    ∀ (xs : List ℚ) (s : HysteresisSmoother), P s → P (hysteresisRun h s xs) := by
  intro xs
  induction xs with
  | nil => intro s hs; exact hs
  | cons a tl ih =>
    intro s hs
    rw [hysteresisRun_cons]
    exact ih _ (hstep s _ hs)

lemma stateAfter_zero (h : Nat) (xs : List ℚ) : stateAfter h xs 0 = hysteresisInit := rfl

lemma stateAfter_succ (h : Nat) (xs : List ℚ) (n : Nat) (hn : n < xs.length) :
    stateAfter h xs (n + 1) =
      hysteresisStep h (stateAfter h xs n) (thresholdFlag (xs.getD n 0)) := by
  unfold stateAfter hysteresisRun
  rw [List.take_succ, List.foldl_append, List.getElem?_eq_getElem hn]
  simp only [Option.toList_some, List.foldl_cons, List.foldl_nil,
    HysteresisSmoother.Process, List.getD_eq_getElem xs 0 hn]

lemma stateAfter_stable (h : Nat) (xs : List ℚ) (n : Nat) (hn : xs.length ≤ n) :
    stateAfter h xs n = stateAfter h xs xs.length := by
  unfold stateAfter
  rw [List.take_of_length_le hn, List.take_length]

lemma gate_inv (h : Nat) (xs : List ℚ) (n : Nat) (hn : n ≤ xs.length) :
    (stateAfter h xs n).counter_ ≤ n ∧
    ((stateAfter h xs n).counter_ = 0 ↔
      (stateAfter h xs n).pending_flag_ = (stateAfter h xs n).current_flag_) ∧
    (∀ k, k < (stateAfter h xs n).counter_ →
      thresholdFlag (xs.getD (n - 1 - k) 0) = (stateAfter h xs n).pending_flag_) := by
  induction n with
  | zero => simp [stateAfter_zero, hysteresisInit]
  | succ m ih =>
    obtain ⟨h1, h2, h3⟩ := ih (by omega)
    rw [stateAfter_succ h xs m (by omega)]
    rcases hst : stateAfter h xs m with ⟨cur, pen, cnt⟩
    rw [hst] at h1 h2 h3
    dsimp only at h1 h2 h3
    unfold hysteresisStep
    dsimp only
    split_ifs with ha hb hcond <;> dsimp only <;> refine ⟨?_, ?_, ?_⟩
    · omega
    · simpa using hb.symm
    · intro k hk
      omega
    · omega
    · constructor
      · intro habs; omega
      · intro habs
        rw [habs] at hb
        exact absurd hb ha
    · intro k hk
      simp only [Nat.add_sub_cancel]
      rcases Nat.eq_zero_or_pos k with rfl | hkpos
      · simpa using hb
      · rw [show m - k = m - 1 - (k - 1) from by omega]
        exact h3 (k - 1) (by omega)
    · omega
    · constructor
      · intro habs
        exact habs.elim
      · intro habs
        exact absurd habs ha
    · intro k hk
      have hk0 : k = 0 := by omega
      subst hk0
      simp
    · omega
    · simp
    · intro k hk
      omega

lemma current_change_step (h : Nat) (s : HysteresisSmoother) (t : Bool)
    (hch : (hysteresisStep h s t).current_flag_ ≠ s.current_flag_) :
    t ≠ s.current_flag_ ∧ t = s.pending_flag_ ∧ h ≤ s.counter_ + 1 ∧
    (hysteresisStep h s t).current_flag_ = t := by
  unfold hysteresisStep at hch ⊢
  split_ifs at hch ⊢ with ha hb hcond
  · exact ⟨ha, hb, hcond, rfl⟩
  · exact absurd rfl hch
  · exact absurd rfl hch
  · exact absurd rfl hch

lemma stateAfter_recurrence (h : Nat) (xs : List ℚ) (i : Nat)
    (h1 : 1 ≤ i) (h2 : i ≤ xs.length) :
    stateAfter h xs i =
      hysteresisStep h (stateAfter h xs (i - 1)) (thresholdFlag (xs.getD (i - 1) 0)) := by
  have hi : i - 1 + 1 = i := by omega
  rw [← hi, stateAfter_succ h xs (i - 1) (by omega)]
  rw [hi]

lemma changeAt_flip (h : Nat) (xs : List ℚ) (i : Nat) (hchg : ChangeAt h xs i) :
    thresholdFlag (xs.getD (i - 1) 0) = currentAfter h xs i ∧
    h ≤ (stateAfter h xs (i - 1)).counter_ + 1 ∧
    thresholdFlag (xs.getD (i - 1) 0) = (stateAfter h xs (i - 1)).pending_flag_ := by
  obtain ⟨hi1, hil, hne⟩ := hchg
  have hrec := stateAfter_recurrence h xs i hi1 hil
  have hch : (hysteresisStep h (stateAfter h xs (i - 1))
      (thresholdFlag (xs.getD (i - 1) 0))).current_flag_ ≠
      (stateAfter h xs (i - 1)).current_flag_ := by
    rw [← hrec]
    exact hne
  obtain ⟨hna, hnb, hnc, hnd⟩ := current_change_step h _ _ hch
  refine ⟨?_, hnc, hnb⟩
  unfold currentAfter
  rw [hrec, hnd]

lemma changeAt_window (h : Nat) (xs : List ℚ) (i : Nat) (hchg : ChangeAt h xs i) :
    h ≤ i ∧ ∀ k, k < h →
      thresholdFlag (xs.getD (i - 1 - k) 0) = currentAfter h xs i := by
  obtain ⟨hi1, hil, hne⟩ := hchg
  obtain ⟨hflip, hcnt, hpen⟩ := changeAt_flip h xs i ⟨hi1, hil, hne⟩
  obtain ⟨hc1, hc2, hc3⟩ := gate_inv h xs (i - 1) (by omega)
  constructor
  · omega
  · intro k hk
    rcases Nat.eq_zero_or_pos k with rfl | hkpos
    · simpa using hflip
    · have hidx : i - 1 - k = i - 1 - 1 - (k - 1) := by omega
      rw [hidx, hc3 (k - 1) (by omega), ← hpen, hflip]

lemma changeAt_target (h : Nat) (xs : List ℚ) (i : Nat) (hchg : ChangeAt h xs i) :
    thresholdFlag (xs.getD (i - 1) 0) = currentAfter h xs i :=
  (changeAt_flip h xs i hchg).1

lemma currents_const (h : Nat) (xs : List ℚ) (i j : Nat)
    (hi1 : 1 ≤ i) (hjl : j ≤ xs.length) (hij : i < j)
    (hmid : ∀ m, i < m → m < j → ¬ ChangeAt h xs m) :
    ∀ d, i + d ≤ j - 1 → currentAfter h xs (i + d) = currentAfter h xs i := by
  intro d
  induction d with
  | zero => intro _; rfl
  | succ e ihe =>
    intro hle
    have he : i + e ≤ j - 1 := by omega
    have hnc := hmid (i + e + 1) (by omega) (by omega)
    unfold ChangeAt at hnc
    push_neg at hnc
    have heq := hnc (by omega) (by omega)
    have hsub : i + e + 1 - 1 = i + e := by omega
    rw [hsub] at heq
    have hstep : i + (e + 1) = i + e + 1 := by omega
    rw [hstep, heq]
    exact ihe he

lemma changes_separated (h : Nat) (xs : List ℚ) (i j : Nat)
    (hchi : ChangeAt h xs i) (hchj : ChangeAt h xs j) (hij : i < j)
    (hmid : ∀ m, i < m → m < j → ¬ ChangeAt h xs m) : i + h ≤ j := by
  by_contra hcon
  push_neg at hcon
  obtain ⟨hi1, hil, hnei⟩ := hchi
  obtain ⟨hj1, hjl, hnej⟩ := hchj
  obtain ⟨hhj, hwin⟩ := changeAt_window h xs j ⟨hj1, hjl, hnej⟩
  have hk := hwin (j - i) (by omega)
  have hidx : j - 1 - (j - i) = i - 1 := by omega
  rw [hidx] at hk
  have hti := changeAt_target h xs i ⟨hi1, hil, hnei⟩
  have hconst := currents_const h xs i j hi1 hjl hij hmid ((j - 1) - i) (by omega)
  rw [show i + (j - 1 - i) = j - 1 from by omega] at hconst
  apply hnej
  rw [← hk, hti, ← hconst]

lemma no_window_no_change (h : Nat) (xs : List ℚ) (hh : 1 ≤ h)
    (hosc : ∀ i v, i + h ≤ xs.length →
      ¬ (∀ k, k < h → thresholdFlag (xs.getD (i + k) 0) = v)) :
    ∀ j, ¬ ChangeAt h xs j := by
  intro j hchg
  obtain ⟨hj1, hjl, hne⟩ := hchg
  obtain ⟨hhj, hwin⟩ := changeAt_window h xs j ⟨hj1, hjl, hne⟩
  apply hosc (j - h) (currentAfter h xs j) (by omega)
  intro k hk
  have := hwin (h - 1 - k) (by omega)
  rw [show j - 1 - (h - 1 - k) = j - h + k from by omega] at this
  exact this

lemma held_high_state (h : Nat) (xs : List ℚ) (hh : 2 ≤ h) (hlen : h ≤ xs.length)
    (hin : ∀ i, i < h → (1:ℚ)/2 < xs.getD i 0) :
    (∀ k, 1 ≤ k → k < h → stateAfter h xs k = ⟨false, true, k⟩) ∧
    stateAfter h xs h = ⟨true, true, 0⟩ := by
  have htf : ∀ i, i < h → thresholdFlag (xs.getD i 0) = true := by
    intro i hi
    have := hin i hi
    unfold thresholdFlag
    simp only [decide_eq_true_eq]
    linarith
  have haux : ∀ k, 1 ≤ k → k < h → stateAfter h xs k = ⟨false, true, k⟩ := by
    intro k
    induction k with
    | zero => omega
    | succ e ihe =>
      intro _ hkh
      rcases Nat.eq_zero_or_pos e with rfl | hepos
      · rw [stateAfter_succ h xs 0 (by omega), stateAfter_zero, htf 0 (by omega)]
        unfold hysteresisInit hysteresisStep
        norm_num
      · rw [stateAfter_succ h xs e (by omega), ihe (by omega) (by omega), htf e (by omega)]
        unfold hysteresisStep
        have hno : ¬ h ≤ e + 1 := by omega
        simp [hno]
  refine ⟨haux, ?_⟩
  have hpred : h - 1 + 1 = h := by omega
  nth_rewrite 2 [← hpred]
  rw [stateAfter_succ h xs (h - 1) (by omega),
    haux (h - 1) (by omega) (by omega), htf (h - 1) (by omega)]
  unfold hysteresisStep
  have hyes : h ≤ h - 1 + 1 := by omega
  simp [hyes]

lemma counter_lt_preserved (h : Nat) (hh : 2 ≤ h) (s : HysteresisSmoother) (t : Bool)
    (hs : s.counter_ < h) : (hysteresisStep h s t).counter_ < h := by
  unfold hysteresisStep
  split_ifs with ha hb hcond <;> dsimp only <;> omega

lemma abs_tanh_le_one (z : ℝ) : |Real.tanh z| ≤ 1 := by
  rw [abs_le]
  constructor
  · have hneg := Real.sinh_lt_cosh (x := -z)
    rw [Real.sinh_neg, Real.cosh_neg] at hneg
    rw [Real.tanh_eq_sinh_div_cosh, le_div_iff₀ (Real.cosh_pos z)]
    linarith
  · rw [Real.tanh_eq_sinh_div_cosh, div_le_one (Real.cosh_pos z)]
    exact (Real.sinh_lt_cosh z).le

/-! ### Claim theorems -/

/-- C1: the Hysteretic Gate's per-call transition follows the three-case
rule of the spec — starting from the initial state `(false, false, 0)`, each
`Process` call computes `target = (smoothed input >= 0.5)` and updates the
state by case (1) `target == current`, (2) `target == pending` with commit
once the counter reaches the hysteresis duration, (3) otherwise restart the
dwell count — and the returned value is the (possibly updated) current
flag. -/
theorem hysteretic_gate_three_case_rule (hsamples : Nat) (s : HysteresisSmoother) (x : ℚ) :
    HysteresisSmoother.Process hsamples s x =
      ((hysteresisStepSpec hsamples s (decide ((1/2 : ℚ) ≤ x))).current_flag_,
        hysteresisStepSpec hsamples s (decide ((1/2 : ℚ) ≤ x))) ∧
    (HysteresisSmoother.Process hsamples s x).1 =
      (HysteresisSmoother.Process hsamples s x).2.current_flag_ ∧
    hysteresisInit = ⟨false, false, 0⟩ := by
  refine ⟨?_, rfl, rfl⟩
  unfold HysteresisSmoother.Process thresholdFlag
  rw [hysteresisStep_eq_spec]

/-- C2: `MapToSeries` returns 0 on the empty series, the single entry (with
no clamping) on a one-entry series, and otherwise clamps the value to [0,1]
and returns the series element of the equal-width bucket containing the
clamped value; in particular the result is an element of the series and
value 1 maps to the last element. -/
theorem mapToSeries_bucket_semantics (v : ℚ) (series : List ℚ) :
    MapToSeries v [] = 0 ∧
    (∀ x : ℚ, MapToSeries v [x] = x) ∧
    (series ≠ [] → MapToSeries v series ∈ series) ∧
    (∀ hne : series ≠ [], MapToSeries 1 series = series.getLast hne) ∧
    (2 ≤ series.length →
      ∃ i : Nat, i < series.length ∧ MapToSeries v series = series.getD i 0 ∧
        (i : ℚ) ≤ clamp01 v * series.length ∧
        (clamp01 v * series.length < i + 1 ∨ i + 1 = series.length)) :=
  ⟨mapToSeries_nil v, fun x => mapToSeries_single v x,
    fun hne => mapToSeries_mem v series hne,
    fun hne => mapToSeries_one_getLast series hne,
    fun hlen => mapToSeries_bucket v series hlen⟩

/-- Witness for C2 at `v = 3/4`, `series = [10, 20, 30]`. -/
theorem mapToSeries_bucket_semantics_witness :
    MapToSeries (3/4) [10, 20, 30] ∈ [(10:ℚ), 20, 30] ∧
    MapToSeries 1 [10, 20, 30] = 30 := by
  constructor
  · exact (mapToSeries_bucket_semantics (3/4) [10, 20, 30]).2.2.1 (by simp)
  · have h := (mapToSeries_bucket_semantics 1 [(10:ℚ), 20, 30]).2.2.2.1 (by simp)
    simpa [List.getLast] using h

/-- C3 counterexample: at `bias = 1/2` (which lies in [0,1]) the width
`BiasedScale(1, bias) - BiasedScale(0, bias)` is 1, not 0.5. -/
theorem biasedScale_constant_width_counterexample :
    ((0:ℚ) ≤ 1/2 ∧ (1/2 : ℚ) ≤ 1) ∧
    BiasedScale 1 (1/2) - BiasedScale 0 (1/2) = 1 ∧
    BiasedScale 1 (1/2) - BiasedScale 0 (1/2) ≠ 1/2 := by
  norm_num [BiasedScale, clamp01]

/-- C3 (amended): for every bias in [0,1] the width of `BiasedScale`'s output
range is `0.5 + min(bias, 1 - bias)` — so it is 0.5 exactly at the two
endpoints `bias = 0` and `bias = 1`, and wider in between. -/
theorem biasedScale_width_formula (b : ℚ) (hb0 : 0 ≤ b) (hb1 : b ≤ 1) :
    BiasedScale 1 b - BiasedScale 0 b = 1/2 + min b (1 - b) := by
  simp only [BiasedScale, clamp01_zero, clamp01_one, clamp01_eq_self hb0 hb1]
  by_cases hc : b ≤ 1/2
  · rw [if_pos hc, if_pos hc, min_eq_left (by linarith)]; ring
  · rw [if_neg hc, if_neg hc, min_eq_right (by linarith)]; ring

/-- Witness for the amended C3 at `bias = 3/4`. -/
theorem biasedScale_width_formula_witness :
    (0 ≤ (3/4 : ℚ) ∧ (3/4 : ℚ) ≤ 1) ∧
    BiasedScale 1 (3/4) - BiasedScale 0 (3/4) = 1/2 + min (3/4 : ℚ) (1 - 3/4) :=
  ⟨⟨by norm_num, by norm_num⟩, biasedScale_width_formula (3/4) (by norm_num) (by norm_num)⟩

/-- C4: (a) any two successive changes of the observed flag are at least
`hysteresis_samples` calls apart; (b) a change at call `j` happens only
after the thresholded input has agreed with the committed value for the
whole preceding window of `hysteresis_samples` calls; (c) an input stream
whose thresholded value never stays on one side of 0.5 for
`hysteresis_samples` consecutive calls never changes the flag at all. -/
theorem hysteretic_gate_chatter_suppression (h : Nat) (xs : List ℚ) (hh : 1 ≤ h) :
    (∀ i j, ChangeAt h xs i → ChangeAt h xs j → i < j →
      (∀ m, i < m → m < j → ¬ ChangeAt h xs m) → i + h ≤ j) ∧
    (∀ j, ChangeAt h xs j → h ≤ j ∧ ∀ k, k < h →
      thresholdFlag (xs.getD (j - 1 - k) 0) = currentAfter h xs j) ∧
    ((∀ i v, i + h ≤ xs.length →
        ¬ (∀ k, k < h → thresholdFlag (xs.getD (i + k) 0) = v)) →
      ∀ j, ¬ ChangeAt h xs j) := by
  refine ⟨?_, ?_, ?_⟩
  · intro i j hi hj hij hmid
    exact changes_separated h xs i j hi hj hij hmid
  · intro j hj
    exact changeAt_window h xs j hj
  · intro hosc
    exact no_window_no_change h xs hh hosc

/-- Witness for C4: with `hysteresis_samples = 2` and the input held at 1 the
flag changes at call 2, and the witnessed agreement window covers both
calls. -/
theorem hysteretic_gate_chatter_suppression_witness :
    2 ≤ 2 ∧ ∀ k, k < 2 →
      thresholdFlag ([(1:ℚ), 1].getD (2 - 1 - k) 0) = currentAfter 2 [(1:ℚ), 1] 2 :=
  (hysteretic_gate_chatter_suppression 2 [(1:ℚ), 1] (by norm_num)).2.1 2
    ⟨by norm_num, by norm_num, by
      norm_num [currentAfter, stateAfter, hysteresisRun, HysteresisSmoother.Process,
        hysteresisStep, hysteresisInit, thresholdFlag, List.take]⟩

/-- C5: starting from the initial state, if the gate's (smoothed) input stays
above 0.5 with no intervening oscillation, the observed flag becomes true
exactly at call `hysteresis_samples` — within the configured dwell time —
having been false at every earlier call.  (The actual configuration,
150 ms of dwell at the audio sample rate, gives `hysteresis_samples ≥ 2`.) -/
theorem hysteretic_gate_commit_within_dwell (h : Nat) (xs : List ℚ)
    (hh : 2 ≤ h) (hlen : h ≤ xs.length)
    (habove : ∀ i, i < h → (1:ℚ)/2 < xs.getD i 0) :
    currentAfter h xs h = true ∧ ∀ k, k < h → currentAfter h xs k = false := by
  obtain ⟨haux, hfinal⟩ := held_high_state h xs hh hlen habove
  constructor
  · unfold currentAfter
    rw [hfinal]
  · intro k hk
    rcases Nat.eq_zero_or_pos k with rfl | hkpos
    · rfl
    · unfold currentAfter
      rw [haux k (by omega) hk]

/-- Witness for C5 with `hysteresis_samples = 2` and the input held at 1. -/
theorem hysteretic_gate_commit_within_dwell_witness :
    currentAfter 2 [(1:ℚ), 1] 2 = true ∧
    ∀ k, k < 2 → currentAfter 2 [(1:ℚ), 1] k = false :=
  hysteretic_gate_commit_within_dwell 2 [(1:ℚ), 1] (by norm_num) (by norm_num)
    (by intro i hi; interval_cases i <;> norm_num)

/-- C6: when the gate outputs true the mode branch sets the first shifter's
transposition from the quantized series {2, 5, 7, 10, 12} with mix weights
1 and 0; when it outputs false the mix weights are 0.5 and 0.5, the first
transposition is -9 for shift > 0.5 and -8 otherwise, and the second
transposition is -7 on both sides of the shift2 threshold. -/
theorem mode_branch_parameters (shift shift2 : ℚ) :
    modeBranch true shift shift2 = ⟨MapToSeries shift pitchSeries, none, 1, 0⟩ ∧
    (modeBranch false shift shift2).mix_pitch1 = 1/2 ∧
    (modeBranch false shift shift2).mix_pitch2 = 1/2 ∧
    (modeBranch false shift shift2).transposition1 = (if 1/2 < shift then -9 else -8) ∧
    (modeBranch false shift shift2).transposition2 = some (-7) := by
  refine ⟨rfl, rfl, rfl, rfl, ?_⟩
  simp [modeBranch]

/-- C7: on inputs in [0,1] `BiasedScale` is the affine remap of `value` onto
`[rangeMinSpec bias, rangeMaxSpec bias]`, whose bounds follow the spec's
formulas and hit `[0, 1/2]`, `[0, 1]` and `[1/2, 1]` at bias 0, 1/2 and 1,
with `BiasedScale 0` the lower bound and `BiasedScale 1` the upper bound. -/
theorem biasedScale_affine_remap (v b : ℚ) (hv0 : 0 ≤ v) (hv1 : v ≤ 1)
    (hb0 : 0 ≤ b) (hb1 : b ≤ 1) :
    BiasedScale v b = rangeMinSpec b + v * (rangeMaxSpec b - rangeMinSpec b) ∧
    BiasedScale 0 b = rangeMinSpec b ∧
    BiasedScale 1 b = rangeMaxSpec b ∧
    rangeMinSpec b = (if b ≤ 1/2 then 0 else b - 1/2) ∧
    rangeMaxSpec b = (if b ≤ 1/2 then b + 1/2 else 1) ∧
    rangeMinSpec 0 = 0 ∧ rangeMaxSpec 0 = 1/2 ∧
    rangeMinSpec (1/2) = 0 ∧ rangeMaxSpec (1/2) = 1 ∧
    rangeMinSpec 1 = 1/2 ∧ rangeMaxSpec 1 = 1 := by
  refine ⟨biasedScale_eval hv0 hv1 hb0 hb1, ?_, ?_, rfl, rfl, ?_, ?_, ?_, ?_, ?_, ?_⟩
  · rw [biasedScale_eval le_rfl (by norm_num) hb0 hb1]; ring
  · rw [biasedScale_eval (by norm_num) le_rfl hb0 hb1]; ring
  · norm_num [rangeMinSpec]
  · norm_num [rangeMaxSpec]
  · norm_num [rangeMinSpec]
  · norm_num [rangeMaxSpec]
  · norm_num [rangeMinSpec]
  · norm_num [rangeMaxSpec]

/-- Witness for C7 at `value = 1/4`, `bias = 3/4`. -/
theorem biasedScale_affine_remap_witness :
    BiasedScale (1/4) (3/4) =
      rangeMinSpec (3/4) + (1/4) * (rangeMaxSpec (3/4) - rangeMinSpec (3/4)) :=
  (biasedScale_affine_remap (1/4) (3/4) (by norm_num) (by norm_num)
    (by norm_num) (by norm_num)).1

/-- C8: for every stereo input sample and every value of the abstracted
internal DSP tail, the per-sample output stage returns equal left and right
channels whose magnitude is bounded by 1, because the final step is the
hyperbolic-tangent soft clip of the mono sum. -/
theorem processInline_output_equal_and_bounded (x : stereosample_t) (tail : ℝ) :
    (ProcessInlineOut x tail).L = (ProcessInlineOut x tail).R ∧
    |(ProcessInlineOut x tail).L| ≤ 1 := by
  refine ⟨rfl, ?_⟩
  simpa [ProcessInlineOut] using abs_tanh_le_one (x.L + x.R + tail * (1/2))

/-- C9: with `hysteresis_samples ≥ 2`, every gate state reachable from the
initial state satisfies `counter < hysteresis_samples`, and the counter is
zero exactly when the pending flag equals the current flag. -/
theorem hysteretic_gate_state_invariant (h : Nat) (xs : List ℚ) (hh : 2 ≤ h) :
    (hysteresisRun h hysteresisInit xs).counter_ < h ∧
    ((hysteresisRun h hysteresisInit xs).counter_ = 0 ↔
      (hysteresisRun h hysteresisInit xs).pending_flag_ =
        (hysteresisRun h hysteresisInit xs).current_flag_) := by
  constructor
  · refine foldl_preserve h (fun s t hs => counter_lt_preserved h hh s t hs) xs
      hysteresisInit ?_
    show (0:Nat) < h
    omega
  · have hrun : hysteresisRun h hysteresisInit xs = stateAfter h xs xs.length := by
      unfold stateAfter
      rw [List.take_length]
    rw [hrun]
    exact (gate_inv h xs xs.length le_rfl).2.1

/-- Witness for C9 at `hysteresis_samples = 2` on a one-call stream. -/
theorem hysteretic_gate_state_invariant_witness :
    (hysteresisRun 2 hysteresisInit [(1:ℚ)]).counter_ < 2 ∧
    ((hysteresisRun 2 hysteresisInit [(1:ℚ)]).counter_ = 0 ↔
      (hysteresisRun 2 hysteresisInit [(1:ℚ)]).pending_flag_ =
        (hysteresisRun 2 hysteresisInit [(1:ℚ)]).current_flag_) :=
  hysteretic_gate_state_invariant 2 [(1:ℚ)] (by norm_num)

/-- C10: `ProcessParams` stores the supplied vector verbatim with no length
validation and last-write-wins overwrite semantics, the per-sample pass
reads `kN_Params = 7` floats whose in-bounds access requires a stored length
of at least 7, and a short vector is accepted by `ProcessParams` yet makes
the per-sample read fall out of bounds — nothing enforces the length
precondition. -/
theorem processParams_stores_verbatim_no_validation :
    (∀ (app : BettyAudioApp) (params : List ℚ),
      (ProcessParams app params).neuralNetOutputs = params) ∧
    (∀ (app : BettyAudioApp) (p1 p2 : List ℚ),
      ProcessParams (ProcessParams app p1) p2 = ProcessParams app p2) ∧
    kN_Params = 7 ∧
    (∀ buf : List ℚ, (readParamBlock buf).isSome = decide (7 ≤ buf.length)) ∧
    readParamBlock (ProcessParams ⟨[1, 2, 3]⟩ []).neuralNetOutputs = none := by
  refine ⟨fun _ _ => rfl, fun _ _ _ => rfl, rfl, ?_, rfl⟩
  intro buf
  unfold readParamBlock kN_Params
  split_ifs with hc
  · simp [hc]
  · simp [hc]

end MLDrummer
